import Mathlib

/-!
Shallow embedding of `calendar_display.c` (calendar rendering for an e-paper
display).  Each drawing primitive call (`Paint_Clear`, `Paint_DrawLine`,
`Paint_DrawRectangle`, `EPD_DrawUTF8`) is modelled as a constructor of
`DrawCmd`; every rendering function is a pure function producing the list of
draw commands it issues, in order.  Values the C code stores into `uint8_t`
locals are reduced `% 256`; expressions passed directly as arguments are kept
as the mathematical integers the C `int` arithmetic produces (all are small
and positive here).  The external collaborators (`is_leap`, `day_of_week_get`,
`transformTime` from `etime`, and the font constants) are parameters of the
embedding: the module only consumes them through narrow interfaces.
-/

/-- Colors used by the module (`BLACK` / `WHITE`). -/
inductive Color where
  | black
  | white
deriving DecidableEq, Repr

/-- Font identifiers passed to `EPD_DrawUTF8`; the module uses three external
font constants and in one call site passes the literal `0` (no wide font). -/
inductive Font where
  | ascii7x12
  | ascii11x16
  | utf8_16x16
  | noFont
deriving DecidableEq, Repr

/-- One drawing-primitive invocation, recorded with its arguments.
`clear` is `Paint_Clear`, `line` is `Paint_DrawLine` (the constant dot-pixel
and line-style arguments are the same at every call site and are omitted),
`rectFill` is `Paint_DrawRectangle` with `DRAW_FILL_FULL`, and `text` is
`EPD_DrawUTF8 (x, y, scale, string, font1, font2, fg, bg)`. -/
inductive DrawCmd where
  | clear (c : Color)
  | line (x0 y0 x1 y1 : Nat) (c : Color)
  | rectFill (x0 y0 x1 y1 : Nat) (c : Color)
  | text (x y scale : Nat) (s : String) (f1 f2 : Font) (fg bg : Color)
deriving DecidableEq, Repr

/-- The constant table `days_in_month[2][12]`, one row per leap flag:
row `false` is the non-leap row, row `true` the leap row. -/
def days_in_month (leap : Bool) : List Nat :=
  if leap then [31, 29, 31, 30, 31, 30, 31, 31, 30, 31, 30, 31]
  else [31, 28, 31, 30, 31, 30, 31, 31, 30, 31, 30, 31]

/-- The constant array `week_names_cn[]` of the seven weekday labels. -/
def week_names_cn : List String := ["日", "一", "二", "三", "四", "五", "六"]

/-- The row index expression `month - 1` of
`days_in_month[leap][month - 1]`: `month` is a `uint8_t`, so by the C integer
promotions the subtraction is carried out in `int`, giving `-1` for
`month = 0`. -/
def month_index (month : Nat) : Int := (month : Int) - 1

/-- The table access `days_in_month[leap][month - 1]`, embedded as an
`Option`-returning lookup: `none` exactly when the C access is out of bounds
(index negative or `≥ 12`). -/
def month_lookup (leap : Bool) (month : Nat) : Option Nat :=
  if month_index month < 0 then none
  else (days_in_month leap).get? (month_index month).toNat

/-- `get_days_in_month(year, month)`: queries the external `is_leap` (passed
here as the oracle `isLeap`) and looks up the month-length table. -/
def get_days_in_month (isLeap : Nat → Bool) (year month : Nat) : Option Nat :=
  month_lookup (isLeap year) month

/-- `get_first_day_of_month(year, month)`: delegates to the external
`day_of_week_get(month, 1, year)` (the oracle `dow`); the result is returned
as `uint8_t`, hence the `% 256`. -/
def get_first_day_of_month (dow : Nat → Nat → Nat → Nat) (year month : Nat) : Nat :=
  dow month 1 year % 256

/-- `draw_calendar_title(year, month)`: formats `"%d年%d月"` and issues one
text draw at `(50, 2)` with scale 1. -/
def draw_calendar_title (year month : Nat) : List DrawCmd :=
  let title_buf := Nat.repr year ++ "年" ++ Nat.repr month ++ "月"
  [DrawCmd.text 50 2 1 title_buf Font.ascii11x16 Font.utf8_16x16 Color.black Color.white]

/-- `draw_week_header()`: for `i` in `0..6`, computes the `uint8_t` local
`x_pos = x_start + i * cell_width` and draws `week_names_cn[i]` at
`(x_pos + 8, 25)` with scale 0. -/
def draw_week_header : List DrawCmd :=
  (List.range 7).map (fun i =>
    let x_pos := (10 + i * 28) % 256
    DrawCmd.text (x_pos + 8) 25 0 (week_names_cn.getD i "")
      Font.ascii7x12 Font.utf8_16x16 Color.black Color.white)

/-- `draw_calendar_grid()`: 7 horizontal lines (`i` in `0..6`) and 8 vertical
lines (`i` in `0..7`) over the fixed geometry `x_start = 10`, `y_start = 40`,
`cell_width = 28`, `cell_height = 12`; `grid_width`, `grid_height` and the
per-line coordinate are `uint8_t` locals. -/
def draw_calendar_grid : List DrawCmd :=
  let x_start := 10
  let y_start := 40
  let cell_width := 28
  let cell_height := 12
  let grid_width := (7 * cell_width) % 256
  let grid_height := (6 * cell_height) % 256
  ((List.range 7).map (fun i =>
    let y := (y_start + i * cell_height) % 256
    DrawCmd.line x_start y (x_start + grid_width) y Color.black))
  ++ ((List.range 8).map (fun i =>
    let x := (x_start + i * cell_width) % 256
    DrawCmd.line x y_start x (y_start + grid_height) Color.black))

/-- The body of one iteration of the day loop in `draw_calendar_dates`:
the `uint8_t` locals `x_pos`, `y_pos`, the `sprintf(day_buf, "%d", day)`
rendering, and either the highlight (filled rectangle plus white-on-black
text) when `day == current_day` or the plain black-on-white text otherwise.
The rectangle corners are passed as `int` expressions, not stored in
`uint8_t`. -/
def day_cell_cmds (current_day day row col : Nat) : List DrawCmd :=
  let x_start := 10
  let y_start := 40
  let cell_width := 28
  let cell_height := 12
  let x_pos := (x_start + col * cell_width + 8) % 256
  let y_pos := (y_start + row * cell_height + 2) % 256
  let day_buf := Nat.repr day
  if day = current_day then
    [DrawCmd.rectFill (x_start + col * cell_width + 1) (y_start + row * cell_height + 1)
       (x_start + (col + 1) * cell_width - 1) (y_start + (row + 1) * cell_height - 1)
       Color.black,
     DrawCmd.text x_pos y_pos 0 day_buf Font.ascii7x12 Font.noFont Color.white Color.black]
  else
    [DrawCmd.text x_pos y_pos 0 day_buf Font.ascii7x12 Font.noFont Color.black Color.white]

/-- The day loop of `draw_calendar_dates`, by remaining iteration count:
`draw_dates_loop cd n day row col` emits the commands of the iterations for
days `day, day+1, …, day+n-1`, threading the `uint8_t` cursor
`col++; if (col >= 7) { col = 0; row++; }`. -/
def draw_dates_loop (current_day : Nat) : Nat → Nat → Nat → Nat → List DrawCmd
  | 0, _, _, _ => []
  | n + 1, day, row, col =>
    day_cell_cmds current_day day row col ++
      (if 7 ≤ (col + 1) % 256 then
        draw_dates_loop current_day n (day + 1) ((row + 1) % 256) 0
      else
        draw_dates_loop current_day n (day + 1) row ((col + 1) % 256))

/-- `draw_calendar_dates(year, month, current_day)`: computes the first
weekday and the day count, then runs the day loop from `day = 1` with cursor
`(row, col) = (0, first_day)`.  `none` when the table access is out of
bounds (month outside `1..12`). -/
def draw_calendar_dates (isLeap : Nat → Bool) (dow : Nat → Nat → Nat → Nat)
    (year month current_day : Nat) : Option (List DrawCmd) :=
  let first_day := get_first_day_of_month dow year month
  (get_days_in_month isLeap year month).map (fun days_count =>
    draw_dates_loop current_day days_count 1 0 first_day)

/-- The fields of `tm_t` that `draw_calendar_page` reads after
`transformTime`. -/
structure Tm where
  tm_year : Nat
  tm_mon : Nat
  tm_mday : Nat
  tm_hour : Nat
  tm_min : Nat

/-- Zero-padded two-digit rendering, the `"%02d"` conversion. -/
def pad2 (n : Nat) : String :=
  if n < 10 then "0" ++ Nat.repr n else Nat.repr n

/-- The footer command: `sprintf(time_buf, "%02d:%02d", ...)` drawn at
`(150, 115)` with scale 1. -/
def footer_cmd (hour minute : Nat) : DrawCmd :=
  DrawCmd.text 150 115 1 (pad2 hour ++ ":" ++ pad2 minute)
    Font.ascii11x16 Font.utf8_16x16 Color.black Color.white

/-- `draw_calendar_page(unix_time)`: decomposes the timestamp through the
external `transformTime` (oracle `transform`, with the external constant
`YEAR0` as parameter `year0`), then clears the canvas and draws title, week
header, grid, dates and footer in order.  `year` is a `uint16_t`, `month`
and `current_day` are `uint8_t`. -/
def draw_calendar_page (isLeap : Nat → Bool) (dow : Nat → Nat → Nat → Nat)
    (transform : Nat → Tm) (year0 unix_time : Nat) : Option (List DrawCmd) :=
  let tm := transform unix_time
  let year := (tm.tm_year + year0) % 65536
  let month := (tm.tm_mon + 1) % 256
  let current_day := tm.tm_mday % 256
  (draw_calendar_dates isLeap dow year month current_day).map (fun dates =>
    DrawCmd.clear Color.white ::
      (draw_calendar_title year month ++ draw_week_header ++ draw_calendar_grid
        ++ dates ++ [footer_cmd tm.tm_hour tm.tm_min]))

/-- Predicate for the current-day highlight rectangle (the only
`Paint_DrawRectangle` call of the module). -/
def isHighlightRect : DrawCmd → Bool
  | DrawCmd.rectFill _ _ _ _ _ => true
  | _ => false

/-- Predicate for inverted (white-on-black) text, the highlighted day
number. -/
def isInvertedText : DrawCmd → Bool
  | DrawCmd.text _ _ _ _ _ _ Color.white Color.black => true
  | _ => false

/-- Predicate for the canvas-clear command. -/
def isClear : DrawCmd → Bool
  | DrawCmd.clear _ => true
  | _ => false

/-- The foreground/background colors of a text command, if any. -/
def textColors : DrawCmd → Option (Color × Color)
  | DrawCmd.text _ _ _ _ _ _ fg bg => some (fg, bg)
  | _ => none

/-- The string of a text command, if any. -/
def textStr : DrawCmd → Option String
  | DrawCmd.text _ _ _ s _ _ _ _ => some s
  | _ => none

/-- All pixel coordinates carried by one draw command. -/
def cmdCoords : DrawCmd → List Nat
  | DrawCmd.clear _ => []
  | DrawCmd.line x0 y0 x1 y1 _ => [x0, y0, x1, y1]
  | DrawCmd.rectFill x0 y0 x1 y1 _ => [x0, y0, x1, y1]
  | DrawCmd.text x y _ _ _ _ _ _ => [x, y]

/-- Modelled from the spec: the standard Gregorian leap-year rule (divisible
by 4 and either not by 100 or by 400) that the external `is_leap` from
`etime` is required to implement. -/
def gregorian_leap (y : Nat) : Bool :=
  y % 4 == 0 && (y % 100 != 0 || y % 400 == 0)

/-- The canonical Gregorian day count of a month, written from the spec's
canonical sequence 31, 28/29, 31, 30, 31, 30, 31, 31, 30, 31, 30, 31; the
comparison target for the month-length table. -/
def canonical_days (y m : Nat) : Nat :=
  if m = 2 then (if gregorian_leap y then 29 else 28)
  else [31, 28, 31, 30, 31, 30, 31, 31, 30, 31, 30, 31].getD (m - 1) 0

/-- Drawing onto a canvas that already holds `canvas`: the module only
appends draw commands, it never reads the canvas back. -/
def render_on (canvas cmds : List DrawCmd) : List DrawCmd := canvas ++ cmds

/-- `day_cell_cmds` with every `uint8_t` truncation removed: the
exact-integer-arithmetic rendering of the same coordinate expressions. -/
def day_cell_cmds_exact (current_day day row col : Nat) : List DrawCmd :=
  let x_start := 10
  let y_start := 40
  let cell_width := 28
  let cell_height := 12
  let x_pos := x_start + col * cell_width + 8
  let y_pos := y_start + row * cell_height + 2
  let day_buf := Nat.repr day
  if day = current_day then
    [DrawCmd.rectFill (x_start + col * cell_width + 1) (y_start + row * cell_height + 1)
       (x_start + (col + 1) * cell_width - 1) (y_start + (row + 1) * cell_height - 1)
       Color.black,
     DrawCmd.text x_pos y_pos 0 day_buf Font.ascii7x12 Font.noFont Color.white Color.black]
  else
    [DrawCmd.text x_pos y_pos 0 day_buf Font.ascii7x12 Font.noFont Color.black Color.white]

/-- The day loop with every `uint8_t` truncation removed. -/
def draw_dates_loop_exact (current_day : Nat) : Nat → Nat → Nat → Nat → List DrawCmd
  | 0, _, _, _ => []
  | n + 1, day, row, col =>
    day_cell_cmds_exact current_day day row col ++
      (if 7 ≤ col + 1 then draw_dates_loop_exact current_day n (day + 1) (row + 1) 0
       else draw_dates_loop_exact current_day n (day + 1) row (col + 1))

/-- `draw_week_header` with every `uint8_t` truncation removed. -/
def draw_week_header_exact : List DrawCmd :=
  (List.range 7).map (fun i =>
    DrawCmd.text (10 + i * 28 + 8) 25 0 (week_names_cn.getD i "")
      Font.ascii7x12 Font.utf8_16x16 Color.black Color.white)

/-- `draw_calendar_grid` with every `uint8_t` truncation removed. -/
def draw_calendar_grid_exact : List DrawCmd :=
  ((List.range 7).map (fun i =>
    DrawCmd.line 10 (40 + i * 12) (10 + 7 * 28) (40 + i * 12) Color.black))
  ++ ((List.range 8).map (fun i =>
    DrawCmd.line (10 + i * 28) 40 (10 + i * 28) (40 + 6 * 12) Color.black))

/-- Capacity of the `char day_buf[3]` buffer in `draw_calendar_dates`. -/
def day_buf_size : Nat := 3

lemma draw_dates_loop_succ (cd n d r c : Nat) :
    draw_dates_loop cd (n + 1) d r c = day_cell_cmds cd d r c ++
      (if 7 ≤ (c + 1) % 256 then draw_dates_loop cd n (d + 1) ((r + 1) % 256) 0
       else draw_dates_loop cd n (d + 1) r ((c + 1) % 256)) := rfl

/-- The running `(row, col)` cursor of the day loop stays on the closed form
`(idx / 7, idx mod 7)`: starting at cursor `(idx / 7, idx % 7)`, the loop
emits, for its `k`-th iteration, the cell commands at
`((idx + k) / 7, (idx + k) % 7)`. -/
lemma draw_dates_loop_join (cd : Nat) :
    ∀ (n d idx : Nat), idx + n ≤ 300 →
      draw_dates_loop cd n d (idx / 7) (idx % 7) =
        ((List.range n).map (fun k =>
          day_cell_cmds cd (d + k) ((idx + k) / 7) ((idx + k) % 7))).flatten := by
  intro n
  induction n with
  | zero => intro d idx _; rfl
  | succ m ih =>
    intro d idx h
    have hm7 : idx % 7 < 7 := Nat.mod_lt _ (by omega)
    have hcol : (idx % 7 + 1) % 256 = idx % 7 + 1 := Nat.mod_eq_of_lt (by omega)
    rw [draw_dates_loop_succ, List.range_succ_eq_map, List.map_cons, List.flatten_cons,
      List.map_map]
    have hfun : ((fun k => day_cell_cmds cd (d + k) ((idx + k) / 7) ((idx + k) % 7)) ∘ Nat.succ)
        = fun k => day_cell_cmds cd ((d + 1) + k) (((idx + 1) + k) / 7) (((idx + 1) + k) % 7) := by
      funext k
      have e1 : d + Nat.succ k = (d + 1) + k := by omega
      have e2 : idx + Nat.succ k = (idx + 1) + k := by omega
      simp only [Function.comp_apply, e1, e2]
    rw [hfun, hcol]
    simp only [Nat.add_zero]
    congr 1
    by_cases h6 : idx % 7 = 6
    · rw [if_pos (by omega)]
      have hq : (idx / 7 + 1) % 256 = idx / 7 + 1 := Nat.mod_eq_of_lt (by omega)
      have e3 : idx / 7 + 1 = (idx + 1) / 7 := by omega
      have e4 : (0 : Nat) = (idx + 1) % 7 := by omega
      rw [hq, e3, e4, ih (d + 1) (idx + 1) (by omega)]
    · rw [if_neg (by omega)]
      have e4 : idx % 7 + 1 = (idx + 1) % 7 := by omega
      have e3 : idx / 7 = (idx + 1) / 7 := by omega
      rw [e4, e3, ih (d + 1) (idx + 1) (by omega)]

/-- Every entry the month-length table can return is at most 31. -/
lemma month_lookup_le_31 {leap : Bool} {m v : Nat} (h : month_lookup leap m = some v) :
    v ≤ 31 := by
  unfold month_lookup at h
  split at h
  · exact absurd h (by simp)
  · have hv : v ∈ days_in_month leap := List.get?_mem h
    cases leap <;> simp only [days_in_month] at hv <;> rcases hv with hv <;>
      simp_all <;> omega

lemma cell_countP_highlight (cd d r c : Nat) :
    (day_cell_cmds cd d r c).countP isHighlightRect = if d = cd then 1 else 0 := by
  unfold day_cell_cmds
  split_ifs with h <;>
    simp [List.countP_cons, List.countP_nil, isHighlightRect]

/-- The day loop draws exactly one highlight rectangle when `current_day`
falls among the days it draws, none otherwise. -/
lemma loop_countP_highlight (cd : Nat) : ∀ (n d r c : Nat),
    (draw_dates_loop cd n d r c).countP isHighlightRect =
      if d ≤ cd ∧ cd < d + n then 1 else 0 := by
  intro n
  induction n with
  | zero => intro d r c; rw [if_neg (by omega)]; rfl
  | succ m ih =>
    intro d r c
    rw [draw_dates_loop_succ, List.countP_append, cell_countP_highlight]
    have hbranch :
        (if 7 ≤ (c + 1) % 256 then draw_dates_loop cd m (d + 1) ((r + 1) % 256) 0
          else draw_dates_loop cd m (d + 1) r ((c + 1) % 256)).countP isHighlightRect =
          if d + 1 ≤ cd ∧ cd < d + 1 + m then 1 else 0 := by
      split <;> rw [ih]
    rw [hbranch]
    split_ifs <;> omega

lemma cell_countP_inverted (cd d r c : Nat) :
    (day_cell_cmds cd d r c).countP isInvertedText = if d = cd then 1 else 0 := by
  unfold day_cell_cmds
  split_ifs with h <;>
    simp [List.countP_cons, List.countP_nil, isInvertedText]

/-- The day loop draws exactly one inverted day number when `current_day`
falls among the days it draws, none otherwise. -/
lemma loop_countP_inverted (cd : Nat) : ∀ (n d r c : Nat),
    (draw_dates_loop cd n d r c).countP isInvertedText =
      if d ≤ cd ∧ cd < d + n then 1 else 0 := by
  intro n
  induction n with
  | zero => intro d r c; rw [if_neg (by omega)]; rfl
  | succ m ih =>
    intro d r c
    rw [draw_dates_loop_succ, List.countP_append, cell_countP_inverted]
    have hbranch :
        (if 7 ≤ (c + 1) % 256 then draw_dates_loop cd m (d + 1) ((r + 1) % 256) 0
          else draw_dates_loop cd m (d + 1) r ((c + 1) % 256)).countP isInvertedText =
          if d + 1 ≤ cd ∧ cd < d + 1 + m then 1 else 0 := by
      split <;> rw [ih]
    rw [hbranch]
    split_ifs <;> omega

/-- The day loop never clears the canvas. -/
lemma loop_countP_clear (cd : Nat) : ∀ (n d r c : Nat),
    (draw_dates_loop cd n d r c).countP isClear = 0 := by
  intro n
  induction n with
  | zero => intro d r c; rfl
  | succ m ih =>
    intro d r c
    rw [draw_dates_loop_succ, List.countP_append]
    have hcell : (day_cell_cmds cd d r c).countP isClear = 0 := by
      unfold day_cell_cmds
      split_ifs <;> simp [List.countP_cons, List.countP_nil, isClear]
    have hbranch :
        (if 7 ≤ (c + 1) % 256 then draw_dates_loop cd m (d + 1) ((r + 1) % 256) 0
          else draw_dates_loop cd m (d + 1) r ((c + 1) % 256)).countP isClear = 0 := by
      split <;> rw [ih]
    rw [hcell, hbranch]

lemma cell_text_colors (cd d r c : Nat) :
    ∀ cmd ∈ day_cell_cmds cd d r c, ∀ fg bg, textColors cmd = some (fg, bg) →
      (fg = Color.white ∧ bg = Color.black) ∨ (fg = Color.black ∧ bg = Color.white) := by
  intro cmd hmem fg bg hcol
  unfold day_cell_cmds at hmem
  split_ifs at hmem with h <;> simp only [List.mem_cons, List.mem_singleton,
    List.not_mem_nil, or_false] at hmem
  · rcases hmem with rfl | rfl
    · exact absurd hcol (by simp [textColors])
    · left
      simp only [textColors, Option.some.injEq, Prod.mk.injEq] at hcol
      exact ⟨hcol.1.symm, hcol.2.symm⟩
  · rcases hmem with rfl
    right; simp [textColors] at hcol; exact ⟨hcol.1.symm, hcol.2.symm⟩

/-- Every text command of the day loop is white-on-black or black-on-white. -/
lemma loop_text_colors (cd : Nat) : ∀ (n d r c : Nat),
    ∀ cmd ∈ draw_dates_loop cd n d r c, ∀ fg bg, textColors cmd = some (fg, bg) →
      (fg = Color.white ∧ bg = Color.black) ∨ (fg = Color.black ∧ bg = Color.white) := by
  intro n
  induction n with
  | zero => intro d r c cmd hmem; exact absurd hmem (by simp [draw_dates_loop])
  | succ m ih =>
    intro d r c cmd hmem
    rw [draw_dates_loop_succ, List.mem_append] at hmem
    rcases hmem with hmem | hmem
    · exact cell_text_colors cd d r c cmd hmem
    · split at hmem
      · exact ih (d + 1) ((r + 1) % 256) 0 cmd hmem
      · exact ih (d + 1) r ((c + 1) % 256) cmd hmem

/-- `day_cell_cmds` agrees with its exact-arithmetic version when the cursor
is inside the grid. -/
lemma cell_exact_eq (cd d r c : Nat) (hc : c ≤ 6) (hr : r ≤ 6) :
    day_cell_cmds cd d r c = day_cell_cmds_exact cd d r c := by
  unfold day_cell_cmds day_cell_cmds_exact
  have hx : (10 + c * 28 + 8) % 256 = 10 + c * 28 + 8 := Nat.mod_eq_of_lt (by omega)
  have hy : (40 + r * 12 + 2) % 256 = 40 + r * 12 + 2 := Nat.mod_eq_of_lt (by omega)
  simp only [hx, hy]

/-- The quantity `7 * row + col + remaining` is invariant in the day loop;
under the bound 37 (at most 31 days starting at column at most 6) the loop
agrees with its exact-arithmetic version. -/
lemma loop_exact_eq (cd : Nat) : ∀ (n d r c : Nat), c ≤ 6 → 7 * r + c + n ≤ 37 →
    draw_dates_loop cd n d r c = draw_dates_loop_exact cd n d r c := by
  intro n
  induction n with
  | zero => intro d r c _ _; rfl
  | succ m ih =>
    intro d r c hc hinv
    rw [draw_dates_loop_succ]
    show _ = day_cell_cmds_exact cd d r c ++ _
    rw [cell_exact_eq cd d r c hc (by omega)]
    congr 1
    have hc1 : (c + 1) % 256 = c + 1 := Nat.mod_eq_of_lt (by omega)
    rw [hc1]
    by_cases h7 : 7 ≤ c + 1
    · rw [if_pos h7, if_pos h7]
      have hr1 : (r + 1) % 256 = r + 1 := Nat.mod_eq_of_lt (by omega)
      rw [hr1, ih (d + 1) (r + 1) 0 (by omega) (by omega)]
    · rw [if_neg h7, if_neg h7]
      rw [ih (d + 1) r (c + 1) (by omega) (by omega)]

lemma cell_coords_le (cd d r c : Nat) (hc : c ≤ 6) (hr : r ≤ 5) :
    ∀ cmd ∈ day_cell_cmds cd d r c, ∀ v ∈ cmdCoords cmd, v ≤ 206 := by
  intro cmd hmem v hv
  unfold day_cell_cmds at hmem
  have hx : (10 + c * 28 + 8) % 256 ≤ 186 :=
    le_trans (Nat.mod_le _ _) (by omega)
  have hy : (40 + r * 12 + 2) % 256 ≤ 102 :=
    le_trans (Nat.mod_le _ _) (by omega)
  split_ifs at hmem <;> simp only [List.mem_cons, List.not_mem_nil, or_false] at hmem
  · rcases hmem with rfl | rfl <;> simp only [cmdCoords, List.mem_cons,
      List.not_mem_nil, or_false] at hv <;> rcases hv with rfl | rfl | rfl | rfl <;> omega
  · rcases hmem with rfl
    simp only [cmdCoords, List.mem_cons, List.not_mem_nil, or_false] at hv
    rcases hv with rfl | rfl <;> omega

/-- Every coordinate the day loop emits is at most 206. -/
lemma loop_coords_le (cd : Nat) : ∀ (n d r c : Nat), c ≤ 6 → 7 * r + c + n ≤ 37 →
    ∀ cmd ∈ draw_dates_loop cd n d r c, ∀ v ∈ cmdCoords cmd, v ≤ 206 := by
  intro n
  induction n with
  | zero => intro d r c _ _ cmd hmem; exact absurd hmem (by simp [draw_dates_loop])
  | succ m ih =>
    intro d r c hc hinv cmd hmem
    rw [draw_dates_loop_succ, List.mem_append] at hmem
    rcases hmem with hmem | hmem
    · exact cell_coords_le cd d r c hc (by omega) cmd hmem
    · split at hmem
      · exact ih (d + 1) ((r + 1) % 256) 0 (by omega)
          (by rw [Nat.mod_eq_of_lt (show r + 1 < 256 by omega)]; omega) cmd hmem
      · exact ih (d + 1) r ((c + 1) % 256)
          (by rw [Nat.mod_eq_of_lt (show c + 1 < 256 by omega)]; omega)
          (by rw [Nat.mod_eq_of_lt (show c + 1 < 256 by omega)]; omega) cmd hmem

lemma repr_short : ∀ d, d < 32 → (Nat.repr d).length ≤ 2 := by decide

/-- Every day-number string the loop formats fits the 3-byte buffer. -/
lemma loop_day_strings (cd : Nat) : ∀ (n d r c : Nat), d + n ≤ 32 →
    ∀ cmd ∈ draw_dates_loop cd n d r c, ∀ s, textStr cmd = some s →
      s.length + 1 ≤ day_buf_size := by
  intro n
  induction n with
  | zero => intro d r c _ cmd hmem; exact absurd hmem (by simp [draw_dates_loop])
  | succ m ih =>
    intro d r c hd cmd hmem s hs
    rw [draw_dates_loop_succ, List.mem_append] at hmem
    rcases hmem with hmem | hmem
    · have hrepr : (Nat.repr d).length ≤ 2 := repr_short d (by omega)
      unfold day_cell_cmds at hmem
      split_ifs at hmem <;> simp only [List.mem_cons, List.not_mem_nil, or_false] at hmem
      · rcases hmem with rfl | rfl
        · exact absurd hs (by simp [textStr])
        · simp only [textStr, Option.some.injEq] at hs
          subst hs
          simp only [day_buf_size]
          omega
      · rcases hmem with rfl
        simp only [textStr, Option.some.injEq] at hs
        subst hs
        simp only [day_buf_size]
        omega
    · split at hmem
      · exact ih (d + 1) ((r + 1) % 256) 0 (by omega) cmd hmem s hs
      · exact ih (d + 1) r ((c + 1) % 256) (by omega) cmd hmem s hs

/-- Claim C1: for a valid month (the table lookup succeeds, giving `count`
days) and a first weekday in `0..6`, `draw_calendar_dates` draws, for each
day `d = k + 1` in `1..count`, the cell commands at grid cell
`row = (first + d - 1) / 7`, `col = (first + d - 1) mod 7`, where `first` is
the weekday of the 1st; and these satisfy `row ≤ 5` and `col ≤ 6`. -/
theorem date_cells_placed_at_closed_form (isLeap : Nat → Bool) (dow : Nat → Nat → Nat → Nat)
    (year month current_day count : Nat)
    (hcount : get_days_in_month isLeap year month = some count)
    (hfirst : get_first_day_of_month dow year month ≤ 6) :
    draw_calendar_dates isLeap dow year month current_day =
      some (((List.range count).map (fun k =>
        day_cell_cmds current_day (k + 1)
          ((get_first_day_of_month dow year month + k) / 7)
          ((get_first_day_of_month dow year month + k) % 7))).flatten)
    ∧ ∀ d, 1 ≤ d → d ≤ count →
        (get_first_day_of_month dow year month + d - 1) / 7 ≤ 5 ∧
        (get_first_day_of_month dow year month + d - 1) % 7 ≤ 6 := by
  have hle : count ≤ 31 := month_lookup_le_31 hcount
  set first := get_first_day_of_month dow year month with hf
  constructor
  · unfold draw_calendar_dates
    rw [← hf, hcount]
    show some _ = some _
    congr 1
    have h0 : draw_dates_loop current_day count 1 0 first =
        draw_dates_loop current_day count 1 (first / 7) (first % 7) := by
      have e0 : (0 : Nat) = first / 7 := by omega
      have e1 : first % 7 = first := Nat.mod_eq_of_lt (by omega)
      rw [← e0, e1]
    show draw_dates_loop current_day count 1 0 first = _
    rw [h0, draw_dates_loop_join current_day count 1 first (by omega)]
    exact congrArg List.flatten
      (List.map_congr_left (fun k _ => by rw [Nat.add_comm 1 k]))
  · intro d h1 h2
    exact ⟨by omega, by omega⟩

/-- Witness for C1 at `year = 2023`, `month = 12`, `current_day = 25`,
non-leap oracle, first weekday 6. -/
theorem date_cells_placed_at_closed_form_witness :
    get_days_in_month (fun _ => false) 2023 12 = some 31 ∧
    get_first_day_of_month (fun _ _ _ => 6) 2023 12 ≤ 6 ∧
    (draw_calendar_dates (fun _ => false) (fun _ _ _ => 6) 2023 12 25 =
        some (((List.range 31).map (fun k =>
          day_cell_cmds 25 (k + 1)
            ((get_first_day_of_month (fun _ _ _ => 6) 2023 12 + k) / 7)
            ((get_first_day_of_month (fun _ _ _ => 6) 2023 12 + k) % 7))).flatten)
      ∧ ∀ d, 1 ≤ d → d ≤ 31 →
          (get_first_day_of_month (fun _ _ _ => 6) 2023 12 + d - 1) / 7 ≤ 5 ∧
          (get_first_day_of_month (fun _ _ _ => 6) 2023 12 + d - 1) % 7 ≤ 6) :=
  ⟨by decide, by decide,
    date_cells_placed_at_closed_form (fun _ => false) (fun _ _ _ => 6) 2023 12 25 31
      (by decide) (by decide)⟩

/-- Claim C2: for a valid month with `count` days, one render of
`draw_calendar_dates` emits exactly one highlight rectangle and exactly one
inverted (white-on-black) day number when `current_day` lies in `1..count`,
and none when `current_day` is 0 or exceeds `count`; every other text it
emits is black-on-white. -/
theorem highlight_exactly_one (isLeap : Nat → Bool) (dow : Nat → Nat → Nat → Nat)
    (year month current_day count : Nat)
    (hcount : get_days_in_month isLeap year month = some count) :
    ∀ cmds, draw_calendar_dates isLeap dow year month current_day = some cmds →
      (cmds.countP isHighlightRect =
        if 1 ≤ current_day ∧ current_day ≤ count then 1 else 0) ∧
      (cmds.countP isInvertedText =
        if 1 ≤ current_day ∧ current_day ≤ count then 1 else 0) ∧
      ((current_day = 0 ∨ count < current_day) → cmds.countP isHighlightRect = 0) ∧
      (∀ cmd ∈ cmds, ∀ fg bg, textColors cmd = some (fg, bg) →
        (fg = Color.white ∧ bg = Color.black) ∨ (fg = Color.black ∧ bg = Color.white)) := by
  intro cmds h
  unfold draw_calendar_dates at h
  rw [hcount] at h
  simp only [Option.map_some', Option.some.injEq] at h
  subst h
  refine ⟨?_, ?_, ?_, ?_⟩
  · rw [loop_countP_highlight]
    split_ifs <;> omega
  · rw [loop_countP_inverted]
    split_ifs <;> omega
  · intro hout
    rw [loop_countP_highlight, if_neg (by omega)]
  · exact loop_text_colors current_day count 1 0 _

/-- Witness for C2 at `year = 2023`, `month = 12`, `current_day = 25`. -/
theorem highlight_exactly_one_witness :
    get_days_in_month (fun _ => false) 2023 12 = some 31 ∧
    draw_calendar_dates (fun _ => false) (fun _ _ _ => 6) 2023 12 25 =
      some (draw_dates_loop 25 31 1 0 6) ∧
    (((draw_dates_loop 25 31 1 0 6).countP isHighlightRect =
        if 1 ≤ 25 ∧ 25 ≤ 31 then 1 else 0) ∧
      ((draw_dates_loop 25 31 1 0 6).countP isInvertedText =
        if 1 ≤ 25 ∧ 25 ≤ 31 then 1 else 0) ∧
      ((25 = 0 ∨ 31 < 25) → (draw_dates_loop 25 31 1 0 6).countP isHighlightRect = 0) ∧
      (∀ cmd ∈ draw_dates_loop 25 31 1 0 6, ∀ fg bg, textColors cmd = some (fg, bg) →
        (fg = Color.white ∧ bg = Color.black) ∨ (fg = Color.black ∧ bg = Color.white))) :=
  ⟨by decide, by decide,
    highlight_exactly_one (fun _ => false) (fun _ _ _ => 6) 2023 12 25 31 (by decide)
      (draw_dates_loop 25 31 1 0 6) (by decide)⟩

/-- Claim C3: the month-length table rows are the canonical Gregorian day
counts: the leap row dominates the non-leap row, the rows agree except at
February (index 1), February is 29 versus 28 (difference exactly 1), and
`get_days_in_month` returns the canonical Gregorian count whenever the
external `is_leap` agrees with the Gregorian leap rule. -/
theorem month_table_canonical :
    (∀ m, m < 12 → (days_in_month false).getD m 0 ≤ (days_in_month true).getD m 0) ∧
    (∀ m, m < 12 → m ≠ 1 → (days_in_month true).getD m 0 = (days_in_month false).getD m 0) ∧
    ((days_in_month true).getD 1 0 = 29 ∧ (days_in_month false).getD 1 0 = 28 ∧
      (days_in_month true).getD 1 0 = (days_in_month false).getD 1 0 + 1) ∧
    (∀ (isLeap : Nat → Bool) (y m : Nat), (∀ z, isLeap z = gregorian_leap z) →
      1 ≤ m → m ≤ 12 → get_days_in_month isLeap y m = some (canonical_days y m)) := by
  refine ⟨by decide, by decide, by decide, ?_⟩
  intro isLeap y m hleap h1 h2
  unfold get_days_in_month month_lookup
  rw [hleap y]
  interval_cases m <;> cases hb : gregorian_leap y <;>
    simp [days_in_month, month_index, canonical_days, hb]

/-- Witness for C3 at the leap-row domination for February and the canonical
count of February 2024 (a leap year). -/
theorem month_table_canonical_witness :
    ((1 : Nat) < 12 ∧ (days_in_month false).getD 1 0 ≤ (days_in_month true).getD 1 0) ∧
    ((∀ z, gregorian_leap z = gregorian_leap z) ∧ (1 : Nat) ≤ 2 ∧ (2 : Nat) ≤ 12 ∧
      get_days_in_month gregorian_leap 2024 2 = some (canonical_days 2024 2)) :=
  ⟨⟨by decide, month_table_canonical.1 1 (by decide)⟩,
    fun z => rfl, by decide, by decide,
    month_table_canonical.2.2.2 gregorian_leap 2024 2 (fun z => rfl) (by decide) (by decide)⟩

/-- Counterexample for C4 as stated: the claim asserts that the index
`month - 1` is computed in `uint8_t`, so that `month = 0` yields index 255;
by the C integer promotions it is computed in `int`, and `month = 0` yields
index `-1` (still out of bounds, but not 255). -/
theorem month_index_zero_is_neg_one : month_index 0 = -1 ∧ month_index 0 ≠ 255 := by decide

set_option maxRecDepth 4000 in
/-- Claim C4 (amended): the table lookup of `get_days_in_month` is in
bounds if and only if `month` lies in `1..12`; for `month = 0` the index
`month - 1` is `-1` (below the row, by the C integer promotions), and for
`month ≥ 13` the index is at least 12 (beyond the 12-entry row). -/
theorem month_lookup_in_bounds_iff :
    ∀ (isLeap : Nat → Bool) (year : Nat), ∀ month, month < 256 →
      (((get_days_in_month isLeap year month).isSome ↔ 1 ≤ month ∧ month ≤ 12) ∧
        (month = 0 → month_index month = -1) ∧
        (13 ≤ month → 12 ≤ month_index month)) := by
  intro isLeap year month h
  unfold get_days_in_month
  refine ⟨?_, ?_, ?_⟩
  · cases hb : isLeap year <;> (revert h; revert month; decide)
  · intro h0; subst h0; decide
  · intro h13; unfold month_index; omega

/-- Witness for C4 (amended) at `month = 0`. -/
theorem month_lookup_in_bounds_iff_witness :
    (0 : Nat) < 256 ∧
    (((get_days_in_month (fun _ => true) 2024 0).isSome ↔ 1 ≤ 0 ∧ 0 ≤ 12) ∧
      ((0 : Nat) = 0 → month_index 0 = -1) ∧
      (13 ≤ 0 → 12 ≤ month_index 0)) :=
  ⟨by decide, month_lookup_in_bounds_iff (fun _ => true) 2024 0 (by decide)⟩

/-- Claim C5: for every timestamp whose decomposition gives a month the
table accepts (so the date render succeeds with trace `dates`), the page
trace starts with the full-canvas clear to white before any other command,
followed by the title, the week header, the grid lines, the day cells, and
finally the footer time, in exactly that order; the clear is the only clear
of the trace and the footer is the last command. -/
theorem page_trace_order (isLeap : Nat → Bool) (dow : Nat → Nat → Nat → Nat)
    (transform : Nat → Tm) (year0 t : Nat) (dates : List DrawCmd)
    (hdates : draw_calendar_dates isLeap dow (((transform t).tm_year + year0) % 65536)
        (((transform t).tm_mon + 1) % 256) ((transform t).tm_mday % 256) = some dates) :
    draw_calendar_page isLeap dow transform year0 t =
      some (DrawCmd.clear Color.white ::
        (draw_calendar_title (((transform t).tm_year + year0) % 65536)
            (((transform t).tm_mon + 1) % 256)
          ++ draw_week_header ++ draw_calendar_grid ++ dates
          ++ [footer_cmd (transform t).tm_hour (transform t).tm_min])) ∧
    (∀ page, draw_calendar_page isLeap dow transform year0 t = some page →
      page.head? = some (DrawCmd.clear Color.white) ∧
      page.countP isClear = 1 ∧
      page.getLast? = some (footer_cmd (transform t).tm_hour (transform t).tm_min)) := by
  have hpage : draw_calendar_page isLeap dow transform year0 t =
      some (DrawCmd.clear Color.white ::
        (draw_calendar_title (((transform t).tm_year + year0) % 65536)
            (((transform t).tm_mon + 1) % 256)
          ++ draw_week_header ++ draw_calendar_grid ++ dates
          ++ [footer_cmd (transform t).tm_hour (transform t).tm_min])) := by
    simp only [draw_calendar_page, hdates, Option.map_some']
  refine ⟨hpage, ?_⟩
  intro page hp
  rw [hpage] at hp
  have hp' := Option.some.inj hp
  subst hp'
  refine ⟨rfl, ?_, ?_⟩
  · obtain ⟨count, hc⟩ : ∃ count,
        get_days_in_month isLeap ((((transform t).tm_year + year0) % 65536))
          (((transform t).tm_mon + 1) % 256) = some count := by
      unfold draw_calendar_dates at hdates
      cases h : get_days_in_month isLeap ((((transform t).tm_year + year0) % 65536))
          (((transform t).tm_mon + 1) % 256) with
      | none => rw [h] at hdates; exact absurd hdates (by simp)
      | some c => exact ⟨c, rfl⟩
    have hdl : dates = draw_dates_loop ((transform t).tm_mday % 256) count 1 0
        (get_first_day_of_month dow ((((transform t).tm_year + year0) % 65536))
          (((transform t).tm_mon + 1) % 256)) := by
      unfold draw_calendar_dates at hdates
      rw [hc] at hdates
      simpa using hdates.symm
    rw [List.countP_cons, List.countP_append, List.countP_append, List.countP_append,
      List.countP_append, hdl, loop_countP_clear]
    have ht : (draw_calendar_title ((((transform t).tm_year + year0) % 65536))
        (((transform t).tm_mon + 1) % 256)).countP isClear = 0 := by
      simp [draw_calendar_title, List.countP_cons, isClear]
    have hh : draw_week_header.countP isClear = 0 := by decide
    have hg : draw_calendar_grid.countP isClear = 0 := by decide
    have hf : ([footer_cmd (transform t).tm_hour (transform t).tm_min]).countP isClear = 0 := by
      simp [footer_cmd, List.countP_cons, isClear]
    rw [ht, hh, hg, hf]
    rfl
  · rw [← List.cons_append, List.getLast?_concat]

/-- Witness for C5 at the decomposition (2024, February, day 15, 09:05),
first weekday 4, leap oracle the Gregorian rule, `YEAR0 = 1900`. -/
theorem page_trace_order_witness :
    draw_calendar_dates gregorian_leap (fun _ _ _ => 4) 2024 2 15 =
      some (draw_dates_loop 15 29 1 0 4) ∧
    (draw_calendar_page gregorian_leap (fun _ _ _ => 4) (fun _ => Tm.mk 124 1 15 9 5) 1900 0 =
        some (DrawCmd.clear Color.white ::
          (draw_calendar_title 2024 2 ++ draw_week_header ++ draw_calendar_grid
            ++ draw_dates_loop 15 29 1 0 4 ++ [footer_cmd 9 5])) ∧
      (∀ page, draw_calendar_page gregorian_leap (fun _ _ _ => 4)
          (fun _ => Tm.mk 124 1 15 9 5) 1900 0 = some page →
        page.head? = some (DrawCmd.clear Color.white) ∧
        page.countP isClear = 1 ∧
        page.getLast? = some (footer_cmd 9 5))) :=
  ⟨by decide,
    page_trace_order gregorian_leap (fun _ _ _ => 4) (fun _ => Tm.mk 124 1 15 9 5) 1900 0
      (draw_dates_loop 15 29 1 0 4) (by decide)⟩

/-- Claim C6: `draw_calendar_grid` draws exactly 7 horizontal lines at
`y = 40 + i * 12` for `i` in `0..6`, each from `x = 10` to
`x = 10 + 7 * 28`, then exactly 8 vertical lines at `x = 10 + i * 28` for
`i` in `0..7`, each from `y = 40` to `y = 40 + 6 * 12`. -/
theorem grid_lines_layout :
    draw_calendar_grid =
      ((List.range 7).map (fun i =>
        DrawCmd.line 10 (40 + i * 12) (10 + 7 * 28) (40 + i * 12) Color.black))
      ++ ((List.range 8).map (fun i =>
        DrawCmd.line (10 + i * 28) 40 (10 + i * 28) (40 + 6 * 12) Color.black)) := by
  decide

/-- Counterexample for C7 as stated: the seven labels are not drawn at
`x = x_start + i * cell_width`; the code adds a further `+ 8` offset before
calling the text primitive. -/
theorem week_header_x_without_offset_false :
    draw_week_header ≠ (List.range 7).map (fun i =>
      DrawCmd.text (10 + i * 28) 25 0 (week_names_cn.getD i "")
        Font.ascii7x12 Font.utf8_16x16 Color.black Color.white) := by
  decide

/-- Claim C7 (amended): `draw_week_header` issues exactly seven text draws,
one per weekday label in index order `0..6`, the `i`-th at x-coordinate
`x_start + i * cell_width + 8` (with `x_start = 10`, `cell_width = 28`) and
fixed `y = 25`. -/
theorem week_header_layout :
    draw_week_header = (List.range 7).map (fun i =>
      DrawCmd.text (10 + i * 28 + 8) 25 0 (week_names_cn.getD i "")
        Font.ascii7x12 Font.utf8_16x16 Color.black Color.white) := by
  decide

/-- Claim C8: the grid, header and title renderers are pure functions of
their arguments into a command list appended to the canvas: calling one
twice on any canvas state appends in the second call exactly the command
sequence appended in the first. -/
theorem renderers_stateless (year month : Nat) (s : List DrawCmd) :
    ((render_on (render_on s (draw_calendar_title year month))
        (draw_calendar_title year month)).drop
          (render_on s (draw_calendar_title year month)).length =
      (render_on s (draw_calendar_title year month)).drop s.length) ∧
    ((render_on (render_on s draw_week_header) draw_week_header).drop
          (render_on s draw_week_header).length =
      (render_on s draw_week_header).drop s.length) ∧
    ((render_on (render_on s draw_calendar_grid) draw_calendar_grid).drop
          (render_on s draw_calendar_grid).length =
      (render_on s draw_calendar_grid).drop s.length) := by
  refine ⟨?_, ?_, ?_⟩ <;> simp [render_on, List.drop_left]

/-- Claim C9: no `uint8_t` coordinate computation wraps: the week header
and the grid renderer equal their exact-arithmetic versions outright, and
for a first weekday in `0..6` and at most 31 days the day loop does too;
moreover every coordinate emitted by the three renderers is at most 206
(the grid's right edge `x_start + grid_width`), well below 256. -/
theorem no_uint8_wraparound :
    (draw_week_header = draw_week_header_exact) ∧
    (draw_calendar_grid = draw_calendar_grid_exact) ∧
    (∀ current_day count first, first ≤ 6 → count ≤ 31 →
      (draw_dates_loop current_day count 1 0 first =
        draw_dates_loop_exact current_day count 1 0 first) ∧
      (∀ cmd ∈ draw_week_header ++ draw_calendar_grid ++
          draw_dates_loop current_day count 1 0 first,
        ∀ v ∈ cmdCoords cmd, v ≤ 206)) := by
  refine ⟨by decide, by decide, ?_⟩
  intro cd count first hfirst hcount
  refine ⟨loop_exact_eq cd count 1 0 first hfirst (by omega), ?_⟩
  intro cmd hmem v hv
  rw [List.mem_append, List.mem_append] at hmem
  rcases hmem with (hmem | hmem) | hmem
  · revert hv; revert v; revert hmem; revert cmd; decide
  · revert hv; revert v; revert hmem; revert cmd; decide
  · exact loop_coords_le cd count 1 0 first hfirst (by omega) cmd hmem v hv

/-- Witness for C9 at `current_day = 15`, 31 days, first weekday 6. -/
theorem no_uint8_wraparound_witness :
    (6 : Nat) ≤ 6 ∧ (31 : Nat) ≤ 31 ∧
    ((draw_dates_loop 15 31 1 0 6 = draw_dates_loop_exact 15 31 1 0 6) ∧
      (∀ cmd ∈ draw_week_header ++ draw_calendar_grid ++ draw_dates_loop 15 31 1 0 6,
        ∀ v ∈ cmdCoords cmd, v ≤ 206)) :=
  ⟨by decide, by decide, no_uint8_wraparound.2.2 15 31 6 (by decide) (by decide)⟩

/-- Claim C10: formatting the day number never overflows `day_buf[3]`:
every value the month-length table can return is at most 31, the decimal
rendering of a day in `1..31` needs at most 2 characters plus the NUL, and
every string drawn by a successful `draw_calendar_dates` fits the buffer. -/
theorem day_buf_no_overflow :
    (∀ (leap : Bool) (m v : Nat), month_lookup leap m = some v → v ≤ 31) ∧
    (∀ d, 1 ≤ d → d ≤ 31 → (Nat.repr d).length + 1 ≤ day_buf_size) ∧
    (∀ (isLeap : Nat → Bool) (dow : Nat → Nat → Nat → Nat) (year month current_day : Nat)
        (cmds : List DrawCmd),
      draw_calendar_dates isLeap dow year month current_day = some cmds →
      ∀ cmd ∈ cmds, ∀ s, textStr cmd = some s → s.length + 1 ≤ day_buf_size) := by
  refine ⟨fun leap m v h => month_lookup_le_31 h, ?_, ?_⟩
  · intro d h1 h2
    have := repr_short d (by omega)
    simp only [day_buf_size]
    omega
  · intro isLeap dow year month cd cmds h cmd hmem s hs
    obtain ⟨count, hc⟩ : ∃ count, get_days_in_month isLeap year month = some count := by
      unfold draw_calendar_dates at h
      cases hg : get_days_in_month isLeap year month with
      | none => rw [hg] at h; exact absurd h (by simp)
      | some c => exact ⟨c, rfl⟩
    have hle : count ≤ 31 := month_lookup_le_31 hc
    unfold draw_calendar_dates at h
    rw [hc] at h
    simp only [Option.map_some', Option.some.injEq] at h
    subst h
    exact loop_day_strings cd count 1 0 _ (by omega) cmd hmem s hs

/-- Witness for C10 at day 31 and a January render with `current_day = 5`. -/
theorem day_buf_no_overflow_witness :
    (1 : Nat) ≤ 31 ∧ (31 : Nat) ≤ 31 ∧ ((Nat.repr 31).length + 1 ≤ day_buf_size) ∧
    (draw_calendar_dates (fun _ => false) (fun _ _ _ => 0) 2023 1 5 =
        some (draw_dates_loop 5 31 1 0 0) ∧
      (∀ cmd ∈ draw_dates_loop 5 31 1 0 0, ∀ s, textStr cmd = some s →
        s.length + 1 ≤ day_buf_size)) :=
  ⟨by decide, by decide, day_buf_no_overflow.2.1 31 (by decide) (by decide),
    by decide, day_buf_no_overflow.2.2 (fun _ => false) (fun _ _ _ => 0) 2023 1 5
      (draw_dates_loop 5 31 1 0 0) (by decide)⟩
